import Mathlib

/-!
Shallow embedding of the alarm escalation job engine of
`src/services/correlator/alarmjob.py` (the `AlarmJob` runtime automation),
together with proofs about its action-scheduling loop, end-condition logic,
leader resolution and operator-action entry points.

Timestamps are modelled as whole seconds (`Nat`); the source calls
`replace(microsecond=0)` on every timestamp it manufactures, so the
sub-second component never matters to the verified operations.
Python exceptions are modelled as `Option`/`Except`; Python sets as lists.
-/

namespace NocAlarmJob

/-- Modelled from the spec: action-log entry status enum,
`status ∈ {NEW, SUCCESS, FAILED, SKIP}` (§3 ActionLogEntry); the defining
module `noc/core/fm/enum.py` is not under src/. -/
inductive ActionStatus where
  | NEW
  | SUCCESS
  | FAILED
  | SKIP
deriving DecidableEq

/-- Modelled from the spec: `when ∈ {IMMEDIATE, ON_END}` (§3 ActionLogEntry);
`noc/core/fm/request.py` is not under src/. -/
inductive WhenCondition where
  | IMMEDIATE
  | ON_END
deriving DecidableEq

/-- Modelled from the spec: item lifecycle status
`NEW, CHANGED, PROCESSED, REMOVED, ARCHIVED` (§3 Item);
`noc/core/fm/enum.py` is not under src/. -/
inductive ItemStatus where
  | NEW
  | CHANGED
  | PROCESSED
  | REMOVED
  | ARCHIVED
deriving DecidableEq

/-- Modelled from the spec: escalation policy
`ROOT | ROOT_FIRST | ALWAYS_FIRST | ALWAYS` (§3 AlarmJob);
`noc/core/models/escalationpolicy.py` is not under src/. -/
inductive EscalationPolicy where
  | ROOT
  | ROOT_FIRST
  | ALWAYS_FIRST
  | ALWAYS
deriving DecidableEq

/-- Modelled from the spec: alarm group type; `alarmjob.py` compares against
`GroupType.SERVICE` and `GroupType.GROUP`, any other kind is `OTHER`. -/
inductive GroupType where
  | SERVICE
  | GROUP
  | OTHER
deriving DecidableEq

/-- The slice of an alarm document that `alarmjob.py` reads (spec §6 alarm
store contract): `root`, `status` (raw source string: "A" active,
"C" cleared), `severity`, `ack_user`, grouping data and affected services.
`vars_service` is `vars.get("service")`. -/
structure Alarm where
  id : Nat
  root : Option Nat
  status : String
  severity : Nat
  ack_user : Option String
  group_type : GroupType
  vars_service : Option Nat
  affected_services : List Nat
  reference : String
  groups : List String

/-- `Item` (alarmjob.py lines 45-79): one alarm reference plus lifecycle
status, the atomic unit the job tracks. -/
structure Item where
  alarm : Alarm
  managed_object_id : Option Nat
  status : ItemStatus

/-- `Item.is_close` (alarmjob.py lines 62-65):
`status in {REMOVED, ARCHIVED}`. -/
def Item.is_close (i : Item) : Bool :=
  decide (i.status = ItemStatus.REMOVED) || decide (i.status = ItemStatus.ARCHIVED)

/-- `AllowedAction` (alarmjob.py lines 82-91): one-time operator action
whitelist entry. -/
structure AllowedAction where
  action : Nat
  login : Option String
  stop_processing : Bool

/-- Modelled from the spec: the fields of an action descriptor
(`ActionConfig`, `noc/core/fm/request.py` not under src/) that
`ActionLog.from_request` copies into a fresh log entry. -/
structure ActionConfig where
  action : Nat
  when : WhenCondition
  stop_processing : Bool
  is_match : Nat → Nat → Option String → Bool

/-- `ActionLogEntry` (external type, contract only — spec §3): the fields the
engine depends on: `action` (opaque kind), `timestamp`, `status`, `when`,
`repeat_num`, `document_id`, `stop_processing`, plus the recorded error text
and the one-time marker. `is_match` is the black-box condition contract
`isMatch(severity, now, ackUser) -> bool` (spec §3). Modelled from the spec:
`actionlog.py` is not under src/. -/
structure ActionLog where
  action : Nat
  timestamp : Nat
  status : ActionStatus
  when : WhenCondition
  repeat_num : Nat
  document_id : Option Nat
  stop_processing : Bool
  error : Option String
  one_time : Bool
  is_match : Nat → Nat → Option String → Bool

/-- `ActionResult` (spec §6 action runner contract):
`{status, error?, action?, documentId?}`. -/
structure ActionResult where
  status : ActionStatus
  error : Option String
  action : Option ActionConfig
  document_id : Option Nat

/-- Modelled from the spec: `setStatus` records the execution result on the
entry (§4.2 step 10); the engine later reads back the status and the error
text. -/
def ActionLog.set_status (aa : ActionLog) (r : ActionResult) : ActionLog :=
  { aa with status := r.status, error := r.error }

/-- Modelled from the spec: `getRepeat` — "append a new entry cloned at
`timestamp + repeatDelaySeconds` with `repeatNum+1`" (§4.2 step 7); the
clone is a fresh pending (`NEW`) entry. -/
def ActionLog.get_repeat (aa : ActionLog) (delay : Nat) : ActionLog :=
  { aa with
    timestamp := aa.timestamp + delay
    repeat_num := aa.repeat_num + 1
    status := ActionStatus.NEW
    error := none
    document_id := none }

/-- Modelled from the spec: `ActionLog.from_request` builds a pending (`NEW`)
entry from an action descriptor at the given start timestamp (§4.2 step 8 and
§4.3 `runAction`). -/
def ActionLog.from_request (cfg : ActionConfig) (started_at : Nat)
    (document_id : Option Nat) (one_time : Bool) : ActionLog :=
  { action := cfg.action
    timestamp := started_at
    status := ActionStatus.NEW
    when := cfg.when
    repeat_num := 0
    document_id := document_id
    stop_processing := cfg.stop_processing
    error := none
    one_time := one_time
    is_match := cfg.is_match }

/-- `AlarmJob` (alarmjob.py lines 94-150): the functional state of the job.
External plumbing (logger, span, process lock, telemetry ids) is not part of
the verified state. -/
structure AlarmJob where
  items : List Item
  actions : List ActionLog
  base_severity : Nat
  allowed_actions : List AllowedAction
  items_policy : EscalationPolicy
  end_condition : String
  max_repeats : Nat
  repeat_delay : Nat

/-- `AlarmJob.leader_item` (alarmjob.py lines 168-173): the first item;
`none` models the `ValueError` raised when the first item is `ARCHIVED`
(and the `IndexError` on an empty item list). -/
def AlarmJob.leader_item (job : AlarmJob) : Option Item :=
  match job.items with
  | [] => none
  | i :: _ => if i.status = ItemStatus.ARCHIVED then none else some i

/-- `AlarmJob.is_end` (alarmjob.py lines 192-203): end-condition decision.
`CR`/`CT`: leader item closed or leader alarm status "C"; `CA`: all items
closed; `M`: never; any other string falls through to `True`. `none` models
the `ValueError` propagated from `leader_item`. -/
def AlarmJob.is_end (job : AlarmJob) : Option Bool :=
  if job.end_condition = "CR" ∨ job.end_condition = "CT" then
    (AlarmJob.leader_item job).map
      (fun li => li.is_close || decide (li.alarm.status = "C"))
  else if job.end_condition = "CA" then
    some (job.items.all Item.is_close)
  else if job.end_condition = "M" then
    some false
  else
    some true

/-- `sorted(self.actions, key=operator.attrgetter("timestamp"))`
(alarmjob.py lines 227 and 343): stable sort of the action list by
timestamp. The source uses Python's stable sort; `List.insertionSort` is
stable as well (equal-timestamp entries keep their relative order), so the
two agree observationally. -/
def sortActions (l : List ActionLog) : List ActionLog :=
  List.insertionSort (fun a b => a.timestamp ≤ b.timestamp) l

/-- Scan of `AlarmJob.get_next_ts` (alarmjob.py lines 227-230) over the
sorted action list: first entry with `status == NEW` and
`when != ON_END`. -/
def findNextTs : List ActionLog → Option Nat
  | [] => none
  | aa :: rest =>
    if aa.status = ActionStatus.NEW ∧ aa.when ≠ WhenCondition.ON_END then
      some (aa.timestamp + 1)
    else
      findNextTs rest

/-- `AlarmJob.get_next_ts` (alarmjob.py lines 223-230). The source returns
`(aa.timestamp + timedelta(seconds=1)).replace(microsecond=0)`; at
whole-second granularity this is `aa.timestamp + 1`. -/
def AlarmJob.get_next_ts (job : AlarmJob) : Option Nat :=
  findNextTs (sortActions job.actions)

/-- The action runner (spec §6): `runAction(actionKind, ctx) -> ActionResult`;
a raised exception is modelled as `Except.error` carrying the error text. -/
abbrev Runner : Type := ActionLog → Except String ActionResult

/-- The per-call context `run()` computes before its action loop
(alarmjob.py lines 315-334): current time, leader severity and ack user,
severity-drift flag `changed`, effective end flag, and repeat policy. -/
structure RunCtx where
  now : Nat
  severity : Nat
  ack_user : Option String
  changed : Bool
  is_end : Bool
  max_repeats : Nat
  repeat_delay : Nat
  end_condition : String

/-- Lines 374-384 of alarmjob.py: execute one action through the runner;
an exception is caught and converted into a `FAILED` result carrying the
error text, never re-raised. -/
def effResult (runner : Runner) (aa : ActionLog) : ActionResult :=
  match runner aa with
  | Except.ok r => r
  | Except.error e =>
    { status := ActionStatus.FAILED, error := some e, action := none, document_id := none }

/-- Lines 387-390 of alarmjob.py: the bounded self-scheduling repeat appended
when the result is `SUCCESS` and `repeat_num < max_repeats`. -/
def repeatOf (ctx : RunCtx) (aa : ActionLog) (r : ActionResult) : List ActionLog :=
  if aa.repeat_num < ctx.max_repeats ∧ r.status = ActionStatus.SUCCESS then
    [aa.get_repeat ctx.repeat_delay]
  else
    []

/-- Lines 391-398 of alarmjob.py: a follow-on action descriptor carried by the
result is appended as a fresh entry timestamped at the original entry's
time. -/
def followOf (aa : ActionLog) (r : ActionResult) : List ActionLog :=
  match r.action with
  | some cfg => [ActionLog.from_request cfg aa.timestamp r.document_id false]
  | none => []

/-- Lines 399-400 of alarmjob.py: a `STOP_CLEAR` watch is registered when the
end condition is `CT`, the result carries a document id, and the job has not
ended; modelled by counting registrations. -/
def watchOf (ctx : RunCtx) (r : ActionResult) : Nat :=
  if ctx.end_condition = "CT" ∧ r.document_id.isSome = true ∧ ctx.is_end = false then
    1
  else
    0

/-- Observable outcome of the action loop of `run()`
(alarmjob.py lines 343-406): the sorted snapshot after the in-place status
updates (`processed`), the entries appended to `self.actions` during the
loop (`appended`), the entries handed to the runner, in order (`executed`),
and the number of `STOP_CLEAR` watches registered (`watches`). -/
structure LoopOut where
  processed : List ActionLog
  appended : List ActionLog
  executed : List ActionLog
  watches : Nat

/-- The action loop of `AlarmJob.run()` (alarmjob.py lines 343-406), over the
sorted snapshot of `self.actions`. Branches in source order: skip `FAILED`
(line 349), skip non-`ON_END` entries once ended (line 351), break on the
first future timestamp (line 354), skip `SUCCESS` while severity unchanged
(line 358), `is_match` gate recording `SKIP` (lines 363-371), execution with
exception recovery (lines 374-384), repeat append (line 387), follow-on
append (line 391), `CT` watch (line 399), `set_status` (line 402), and the
`stop_processing` break (line 404). -/
def runLoop (ctx : RunCtx) (runner : Runner) : List ActionLog → LoopOut
  | [] => ⟨[], [], [], 0⟩
  | aa :: rest =>
    if aa.status = ActionStatus.FAILED then
      let o := runLoop ctx runner rest
      ⟨aa :: o.processed, o.appended, o.executed, o.watches⟩
    else if aa.when ≠ WhenCondition.ON_END ∧ ctx.is_end = true then
      let o := runLoop ctx runner rest
      ⟨aa :: o.processed, o.appended, o.executed, o.watches⟩
    else if ctx.now < aa.timestamp then
      ⟨aa :: rest, [], [], 0⟩
    else if aa.status = ActionStatus.SUCCESS ∧ ctx.changed = false then
      let o := runLoop ctx runner rest
      ⟨aa :: o.processed, o.appended, o.executed, o.watches⟩
    else if aa.is_match ctx.severity ctx.now ctx.ack_user = false then
      let o := runLoop ctx runner rest
      ⟨aa.set_status ⟨ActionStatus.SKIP, none, none, none⟩ :: o.processed,
        o.appended, o.executed, o.watches⟩
    else
      let r := effResult runner aa
      if aa.stop_processing then
        ⟨aa.set_status r :: rest, repeatOf ctx aa r ++ followOf aa r, [aa], watchOf ctx r⟩
      else
        let o := runLoop ctx runner rest
        ⟨aa.set_status r :: o.processed,
          repeatOf ctx aa r ++ followOf aa r ++ o.appended,
          aa :: o.executed,
          watchOf ctx r + o.watches⟩

/-- `AlarmJob.sync_items_status` (alarmjob.py lines 291-306) without the
store side effect: every non-leader item in `NEW` or `CHANGED` becomes
`PROCESSED`. -/
def syncItems : List Item → List Item
  | [] => []
  | leader :: rest =>
    leader :: rest.map (fun ii =>
      if ii.status = ItemStatus.NEW ∨ ii.status = ItemStatus.CHANGED then
        { ii with status := ItemStatus.PROCESSED }
      else
        ii)

/-- Observable outcome of one `AlarmJob.run()` call: the new job state plus
the loop trace. -/
structure RunResult where
  job : AlarmJob
  executed : List ActionLog
  appended : List ActionLog
  watches : Nat

/-- The loop context `run()` computes at alarmjob.py lines 315-327 when the
leader item resolves to `li` and `is_end` evaluates to `e`:
`changed = self.severity != self.base_severity` (line 319) and
`is_end = force_end or self.is_end` (line 320). -/
def runCtxOf (job : AlarmJob) (now : Nat) (li : Item) (force_end : Bool)
    (e : Bool) : RunCtx :=
  { now := now
    severity := li.alarm.severity
    ack_user := li.alarm.ack_user
    changed := decide (li.alarm.severity ≠ job.base_severity)
    is_end := force_end || e
    max_repeats := job.max_repeats
    repeat_delay := job.repeat_delay
    end_condition := job.end_condition }

/-- `AlarmJob.run` (alarmjob.py lines 308-414). `none` models the
`ValueError` propagated through `self.severity`/`self.alarm` when the leader
item is archived or missing. External effects (process lock, span,
`check_escalated` store refresh, `safe_save`, `save_state` persistence) are
outside the pure state. The source mutates the shared entries of
`self.actions` in place and appends at the end; since every consumer
re-sorts by timestamp, the post-state is represented by
`processed ++ appended`, which re-sorts identically. -/
def AlarmJob.run (job : AlarmJob) (now : Nat) (runner : Runner)
    (force_end : Bool) : Option RunResult :=
  if job.items.isEmpty then
    some { job := job, executed := [], appended := [], watches := 0 }
  else
    match AlarmJob.leader_item job, AlarmJob.is_end job with
    | some li, some e =>
      let o := runLoop (runCtxOf job now li force_end e) runner (sortActions job.actions)
      some { job := { job with
                      actions := o.processed ++ o.appended
                      items := syncItems job.items }
             executed := o.executed
             appended := o.appended
             watches := o.watches }
    | _, _ => none

/-- The loop outcome of a `run()` call whose leader resolved to `li` with end
flag `e`. -/
def loopOutOf (job : AlarmJob) (now : Nat) (runner : Runner) (force_end : Bool)
    (li : Item) (e : Bool) : LoopOut :=
  runLoop (runCtxOf job now li force_end e) runner (sortActions job.actions)

/-- `AlarmJob.get_leader` (alarmjob.py lines 416-443). Python sets are
modelled as deduplicated lists; a `none` first component means "no leader,
suppress job creation". The outer `Option` models the `ValueError` raised by
`self.alarm` when the leader item is archived. -/
def AlarmJob.get_leader (job : AlarmJob) :
    Option (Option Alarm × List String × List Nat) :=
  (AlarmJob.leader_item job).map (fun li =>
    let alarm := li.alarm
    if alarm.root.isSome then
      (none, [], [])
    else
      let services :=
        if alarm.group_type = GroupType.SERVICE ∧ alarm.vars_service.isSome then
          alarm.vars_service.toList
        else
          alarm.affected_services.dedup
      let groups :=
        if (alarm.group_type = GroupType.SERVICE ∨ alarm.group_type = GroupType.GROUP)
            ∧ job.items_policy ≠ EscalationPolicy.ROOT then
          [alarm.reference]
        else if alarm.groups ≠ [] ∧
            (job.items_policy = EscalationPolicy.ALWAYS_FIRST ∨
              job.items_policy = EscalationPolicy.ROOT_FIRST) then
          alarm.groups.dedup
        else
          []
      if job.items_policy = EscalationPolicy.ROOT then
        (some alarm, [], services)
      else
        (some alarm, groups, services.dedup))

/-- `AlarmJob.is_allowed_action` (alarmjob.py lines 702-704): returns `True`
unconditionally for every action and user. -/
def AlarmJob.is_allowed_action (_job : AlarmJob) (_action : Nat)
    (_user : Option Nat) : Bool :=
  true

/-- `AlarmJob.run_action` (alarmjob.py lines 706-727): permission check, then
append a one-time `NEW` entry at the given (or current) timestamp and invoke
`run()`. On permission denial the source returns without appending or
running, modelled by the unchanged-job result. -/
def AlarmJob.run_action (job : AlarmJob) (cfg : ActionConfig)
    (user : Option Nat) (timestamp : Option Nat) (now : Nat)
    (runner : Runner) : Option RunResult :=
  if AlarmJob.is_allowed_action job cfg.action user = false then
    some { job := job, executed := [], appended := [], watches := 0 }
  else
    let ts := timestamp.getD now
    let al := ActionLog.from_request cfg ts none true
    AlarmJob.run { job with actions := job.actions ++ [al] } now runner false

/-! ### Shared lemmas about the action loop -/

/-- A `FAILED` entry at the head of the loop is kept unchanged and the loop
continues with the tail (alarmjob.py lines 349-350). -/
theorem runLoop_failed_head (ctx : RunCtx) (runner : Runner) (aa : ActionLog)
    (rest : List ActionLog) (h1 : aa.status = ActionStatus.FAILED) :
    runLoop ctx runner (aa :: rest) =
      ⟨aa :: (runLoop ctx runner rest).processed,
        (runLoop ctx runner rest).appended,
        (runLoop ctx runner rest).executed,
        (runLoop ctx runner rest).watches⟩ := by
  rw [runLoop, if_pos h1]

/-- An entry that passes every skip gate is executed: the head step of the
loop for an executed entry (alarmjob.py lines 374-406). -/
theorem runLoop_exec_head (ctx : RunCtx) (runner : Runner) (aa : ActionLog)
    (rest : List ActionLog)
    (h1 : aa.status ≠ ActionStatus.FAILED)
    (h2 : ¬(aa.when ≠ WhenCondition.ON_END ∧ ctx.is_end = true))
    (h3 : aa.timestamp ≤ ctx.now)
    (h4 : ¬(aa.status = ActionStatus.SUCCESS ∧ ctx.changed = false))
    (h5 : aa.is_match ctx.severity ctx.now ctx.ack_user = true) :
    runLoop ctx runner (aa :: rest) =
      if aa.stop_processing then
        ⟨aa.set_status (effResult runner aa) :: rest,
          repeatOf ctx aa (effResult runner aa) ++ followOf aa (effResult runner aa),
          [aa],
          watchOf ctx (effResult runner aa)⟩
      else
        ⟨aa.set_status (effResult runner aa) :: (runLoop ctx runner rest).processed,
          repeatOf ctx aa (effResult runner aa) ++ followOf aa (effResult runner aa)
            ++ (runLoop ctx runner rest).appended,
          aa :: (runLoop ctx runner rest).executed,
          watchOf ctx (effResult runner aa) + (runLoop ctx runner rest).watches⟩ := by
  rw [runLoop, if_neg h1, if_neg h2,
    if_neg (by omega : ¬ ctx.now < aa.timestamp), if_neg h4,
    if_neg (by simp [h5] : ¬ aa.is_match ctx.severity ctx.now ctx.ack_user = false)]

/-- The executed trace of the loop is a sublist of its input list. -/
theorem runLoop_executed_sublist (ctx : RunCtx) (runner : Runner) :
    ∀ l : List ActionLog, (runLoop ctx runner l).executed.Sublist l := by
  intro l
  induction l with
  | nil => simp [runLoop]
  | cons aa rest ih =>
    rw [runLoop]
    split
    · exact ih.cons aa
    · split
      · exact ih.cons aa
      · split
        · exact List.nil_sublist _
        · split
          · exact ih.cons aa
          · split
            · exact ih.cons aa
            · split
              · exact (List.nil_sublist rest).cons₂ aa
              · exact ih.cons₂ aa

/-- Every executed entry had `timestamp ≤ now`: the break on the first future
timestamp (alarmjob.py line 354) precedes every execution. -/
theorem runLoop_executed_le_now (ctx : RunCtx) (runner : Runner) :
    ∀ l : List ActionLog, ∀ aa ∈ (runLoop ctx runner l).executed,
      aa.timestamp ≤ ctx.now := by
  intro l
  induction l with
  | nil => intro aa h; simp [runLoop] at h
  | cons bb rest ih =>
    intro aa h
    by_cases h1 : bb.status = ActionStatus.FAILED
    · rw [runLoop_failed_head ctx runner bb rest h1] at h
      exact ih aa h
    · by_cases h2 : bb.when ≠ WhenCondition.ON_END ∧ ctx.is_end = true
      · rw [runLoop, if_neg h1, if_pos h2] at h
        exact ih aa h
      · by_cases h3 : ctx.now < bb.timestamp
        · rw [runLoop, if_neg h1, if_neg h2, if_pos h3] at h
          simp at h
        · by_cases h4 : bb.status = ActionStatus.SUCCESS ∧ ctx.changed = false
          · rw [runLoop, if_neg h1, if_neg h2, if_neg h3, if_pos h4] at h
            exact ih aa h
          · by_cases h5 : bb.is_match ctx.severity ctx.now ctx.ack_user = false
            · rw [runLoop, if_neg h1, if_neg h2, if_neg h3, if_neg h4, if_pos h5] at h
              exact ih aa h
            · rw [runLoop_exec_head ctx runner bb rest h1 h2 (Nat.le_of_not_lt h3) h4
                (by simp at h5; exact h5)] at h
              by_cases h6 : bb.stop_processing = true
              · rw [if_pos h6] at h
                simp at h
                subst h
                exact Nat.le_of_not_lt h3
              · rw [if_neg h6] at h
                simp at h
                rcases h with h | h
                · subst h
                  exact Nat.le_of_not_lt h3
                · exact ih aa h

/-- No `FAILED` entry is ever handed to the runner: the skip at
alarmjob.py line 349 precedes every execution. -/
theorem runLoop_executed_not_failed (ctx : RunCtx) (runner : Runner) :
    ∀ l : List ActionLog, ∀ aa ∈ (runLoop ctx runner l).executed,
      aa.status ≠ ActionStatus.FAILED := by
  intro l
  induction l with
  | nil => intro aa h; simp [runLoop] at h
  | cons bb rest ih =>
    intro aa h
    by_cases h1 : bb.status = ActionStatus.FAILED
    · rw [runLoop_failed_head ctx runner bb rest h1] at h
      exact ih aa h
    · by_cases h2 : bb.when ≠ WhenCondition.ON_END ∧ ctx.is_end = true
      · rw [runLoop, if_neg h1, if_pos h2] at h
        exact ih aa h
      · by_cases h3 : ctx.now < bb.timestamp
        · rw [runLoop, if_neg h1, if_neg h2, if_pos h3] at h
          simp at h
        · by_cases h4 : bb.status = ActionStatus.SUCCESS ∧ ctx.changed = false
          · rw [runLoop, if_neg h1, if_neg h2, if_neg h3, if_pos h4] at h
            exact ih aa h
          · by_cases h5 : bb.is_match ctx.severity ctx.now ctx.ack_user = false
            · rw [runLoop, if_neg h1, if_neg h2, if_neg h3, if_neg h4, if_pos h5] at h
              exact ih aa h
            · rw [runLoop_exec_head ctx runner bb rest h1 h2 (Nat.le_of_not_lt h3) h4
                (by simp at h5; exact h5)] at h
              by_cases h6 : bb.stop_processing = true
              · rw [if_pos h6] at h
                simp at h
                subst h
                exact h1
              · rw [if_neg h6] at h
                simp at h
                rcases h with h | h
                · subst h
                  exact h1
                · exact ih aa h

/-- When every entry is already `SUCCESS` and the severity is unchanged, the
loop passes through the whole list untouched: nothing executes, nothing is
appended, nothing is watched. -/
theorem runLoop_all_success_noop (ctx : RunCtx) (runner : Runner)
    (hch : ctx.changed = false) :
    ∀ l : List ActionLog, (∀ aa ∈ l, aa.status = ActionStatus.SUCCESS) →
      runLoop ctx runner l = ⟨l, [], [], 0⟩ := by
  intro l
  induction l with
  | nil => intro _; rw [runLoop]
  | cons aa rest ih =>
    intro hall
    have ha : aa.status = ActionStatus.SUCCESS := hall aa (List.mem_cons_self aa rest)
    have hrest : runLoop ctx runner rest = ⟨rest, [], [], 0⟩ :=
      ih (fun bb hb => hall bb (List.mem_cons_of_mem aa hb))
    rw [runLoop, if_neg (by rw [ha]; intro hcon; cases hcon)]
    by_cases h2 : aa.when ≠ WhenCondition.ON_END ∧ ctx.is_end = true
    · rw [if_pos h2, hrest]
    · rw [if_neg h2]
      by_cases h3 : ctx.now < aa.timestamp
      · rw [if_pos h3]
      · rw [if_neg h3, if_pos (And.intro ha hch), hrest]

/-- The sorted snapshot is pairwise non-decreasing in timestamps. -/
theorem sortActions_pairwise (l : List ActionLog) :
    (sortActions l).Pairwise (fun a b => a.timestamp ≤ b.timestamp) := by
  haveI : IsTotal ActionLog (fun a b => a.timestamp ≤ b.timestamp) :=
    ⟨fun a b => Nat.le_total a.timestamp b.timestamp⟩
  haveI : IsTrans ActionLog (fun a b => a.timestamp ≤ b.timestamp) :=
    ⟨fun _ _ _ hab hbc => Nat.le_trans hab hbc⟩
  exact List.sorted_insertionSort (fun a b => a.timestamp ≤ b.timestamp) l

/-- Membership transfers between the action list and its sorted snapshot. -/
theorem mem_sortActions (a : ActionLog) (l : List ActionLog) :
    a ∈ sortActions l ↔ a ∈ l :=
  (List.perm_insertionSort (fun a b => a.timestamp ≤ b.timestamp) l).mem_iff

/-- Inversion of `AlarmJob.run`: a successful call is either the no-item
no-op or the loop outcome for the resolved leader and end flag. -/
theorem run_cases (job : AlarmJob) (now : Nat) (runner : Runner)
    (force_end : Bool) (out : RunResult)
    (h : AlarmJob.run job now runner force_end = some out) :
    (job.items.isEmpty = true ∧
      out = { job := job, executed := [], appended := [], watches := 0 }) ∨
    ∃ li e, AlarmJob.leader_item job = some li ∧ AlarmJob.is_end job = some e ∧
      out = { job := { job with
                actions := (loopOutOf job now runner force_end li e).processed
                  ++ (loopOutOf job now runner force_end li e).appended
                items := syncItems job.items }
              executed := (loopOutOf job now runner force_end li e).executed
              appended := (loopOutOf job now runner force_end li e).appended
              watches := (loopOutOf job now runner force_end li e).watches } := by
  rw [AlarmJob.run] at h
  split at h
  · next hempty =>
    injection h with h
    exact Or.inl ⟨hempty, h.symm⟩
  · split at h
    · next li e hli he =>
      injection h with h
      exact Or.inr ⟨li, e, hli, he, h.symm⟩
    · exact Option.noConfusion h

/-! ### Concrete fixtures used by witnesses and counterexamples -/

/-- A black-box condition that always matches. -/
def matchAll : Nat → Nat → Option String → Bool := fun _ _ _ => true

def alarmW : Alarm :=
  { id := 1, root := none, status := "A", severity := 3, ack_user := none,
    group_type := GroupType.OTHER, vars_service := none, affected_services := [],
    reference := "ref1", groups := [] }

def itemW : Item :=
  { alarm := alarmW, managed_object_id := none, status := ItemStatus.NEW }

def entryW : ActionLog :=
  { action := 1, timestamp := 50, status := ActionStatus.NEW,
    when := WhenCondition.IMMEDIATE, repeat_num := 0, document_id := none,
    stop_processing := false, error := none, one_time := false,
    is_match := matchAll }

def okResult : ActionResult :=
  { status := ActionStatus.SUCCESS, error := none, action := none,
    document_id := none }

/-- A runner that always succeeds with a plain SUCCESS result. -/
def okRunner : Runner := fun _ => Except.ok okResult

/-- A runner that always raises. -/
def errRunner : Runner := fun _ => Except.error ("boom")

def jobW : AlarmJob :=
  { items := [itemW], actions := [entryW], base_severity := 3,
    allowed_actions := [], items_policy := EscalationPolicy.ROOT,
    end_condition := "CR", max_repeats := 0, repeat_delay := 60 }

/-- Fallback result used to totalize `Option.getD` in closed statements. -/
def nullRun : RunResult :=
  { job := jobW, executed := [], appended := [], watches := 0 }

/-- A copy of `entryW` already completed. -/
def entrySW : ActionLog := { entryW with status := ActionStatus.SUCCESS }

/-- `jobW` after its only action already succeeded, severity unchanged. -/
def jobS : AlarmJob := { jobW with actions := [entrySW] }

/-- A due pending `ON_END` entry. -/
def entryON : ActionLog := { entryW with when := WhenCondition.ON_END, action := 2 }

/-- A manual-close job (`is_end` always false) holding one due ON_END entry. -/
def jobM : AlarmJob := { jobW with end_condition := "M", actions := [entryON] }

/-- A due pending entry with the stop-processing flag set. -/
def entryStop : ActionLog := { entryW with stop_processing := true, action := 3 }

/-- A second due pending entry, scheduled after `entryStop`. -/
def entry2 : ActionLog := { entryW with timestamp := 60, action := 4 }

/-- A job holding a stop-processing entry followed by another due entry. -/
def jobC6 : AlarmJob := { jobW with actions := [entryStop, entry2] }

/-- A loop context permitting two repeats, used by the repeat-bound witness. -/
def ctxR : RunCtx :=
  { now := 100, severity := 3, ack_user := none, changed := false,
    is_end := false, max_repeats := 2, repeat_delay := 60,
    end_condition := "CR" }

/-- An alarm that is itself a consequence of another alarm (`root` set). -/
def alarmRoot : Alarm := { alarmW with root := some 9 }

def itemRoot : Item := { itemW with alarm := alarmRoot }

def jobRoot : AlarmJob := { jobW with items := [itemRoot] }

/-! ### Claims -/

/-- C1: In every `AlarmJob.run()` call, action log entries are processed in
non-decreasing timestamp order — the loop walks the stable sort
(`sorted(self.actions, key=attrgetter("timestamp"))`) of the action list —
and the first entry reaching the timestamp check with `timestamp > now`
breaks the loop, so no entry with a later timestamp executes in that
call: every executed entry satisfies `timestamp ≤ now`. -/
theorem run_executes_in_timestamp_order (job : AlarmJob) (now : Nat)
    (runner : Runner) (force_end : Bool) (out : RunResult)
    (h : AlarmJob.run job now runner force_end = some out) :
    out.executed.Sublist (sortActions job.actions) ∧
    out.executed.Pairwise (fun a b => a.timestamp ≤ b.timestamp) ∧
    (∀ aa ∈ out.executed, aa.timestamp ≤ now) := by
  rcases run_cases job now runner force_end out h with ⟨_, hc⟩ | ⟨li, e, _, _, hc⟩
  · subst hc
    exact ⟨List.nil_sublist _, List.Pairwise.nil, fun aa ha => absurd ha (by simp)⟩
  · subst hc
    refine ⟨runLoop_executed_sublist _ _ _, ?_, ?_⟩
    · exact List.Pairwise.sublist (runLoop_executed_sublist _ _ _)
        (sortActions_pairwise job.actions)
    · intro aa ha
      exact runLoop_executed_le_now (runCtxOf job now li force_end e) runner
        (sortActions job.actions) aa ha

/-- Witness for C1 at a concrete job: one due entry, executed at time 100;
the executed trace is a sublist of the sorted action list. -/
theorem run_executes_in_timestamp_order_witness :
    ((AlarmJob.run jobW 100 okRunner false).getD nullRun).executed.Sublist
      (sortActions jobW.actions) := by
  have h : AlarmJob.run jobW 100 okRunner false =
      some ((AlarmJob.run jobW 100 okRunner false).getD nullRun) := rfl
  exact (run_executes_in_timestamp_order jobW 100 okRunner false _ h).1

/-- C2: idempotent rerun — when every action entry already has status
SUCCESS and the leader-alarm severity equals the job's base severity,
`run()` produces no new side effects: no entry is executed (all skipped),
nothing is appended (no repeats, no follow-ons), no watch is registered,
and the resulting action list is exactly the sorted snapshot of the old
one with every status unchanged (still SUCCESS). -/
theorem run_idempotent_rerun (job : AlarmJob) (now : Nat) (runner : Runner)
    (out : RunResult) (li : Item)
    (hli : AlarmJob.leader_item job = some li)
    (hsev : li.alarm.severity = job.base_severity)
    (hall : ∀ aa ∈ job.actions, aa.status = ActionStatus.SUCCESS)
    (h : AlarmJob.run job now runner false = some out) :
    out.executed = [] ∧ out.appended = [] ∧ out.watches = 0 ∧
    out.job.actions = sortActions job.actions ∧
    (∀ aa ∈ out.job.actions, aa.status = ActionStatus.SUCCESS) := by
  rcases run_cases job now runner false out h with ⟨hempty, _⟩ | ⟨li2, e, hli2, _, hc⟩
  · rw [List.isEmpty_iff] at hempty
    rw [AlarmJob.leader_item, hempty] at hli
    exact Option.noConfusion hli
  · subst hc
    have hch : (runCtxOf job now li2 false e).changed = false := by
      rw [hli2] at hli
      injection hli with hli
      subst hli
      simp [runCtxOf, hsev]
    have hloop : loopOutOf job now runner false li2 e =
        ⟨sortActions job.actions, [], [], 0⟩ :=
      runLoop_all_success_noop (runCtxOf job now li2 false e) runner hch
        (sortActions job.actions)
        (fun aa ha => hall aa ((mem_sortActions aa job.actions).mp ha))
    rw [loopOutOf] at hloop
    refine ⟨?_, ?_, ?_, ?_, ?_⟩
    · show (loopOutOf job now runner false li2 e).executed = []
      rw [loopOutOf, hloop]
    · show (loopOutOf job now runner false li2 e).appended = []
      rw [loopOutOf, hloop]
    · show (loopOutOf job now runner false li2 e).watches = 0
      rw [loopOutOf, hloop]
    · show (loopOutOf job now runner false li2 e).processed
          ++ (loopOutOf job now runner false li2 e).appended = sortActions job.actions
      rw [loopOutOf, hloop]
      simp
    · intro aa ha
      have : aa ∈ sortActions job.actions := by
        revert ha
        show aa ∈ (loopOutOf job now runner false li2 e).processed
            ++ (loopOutOf job now runner false li2 e).appended →
          aa ∈ sortActions job.actions
        rw [loopOutOf, hloop]
        simp
      exact hall aa ((mem_sortActions aa job.actions).mp this)

/-- Witness for C2: the all-SUCCESS, severity-unchanged job `jobS` reruns
without executing or appending anything. -/
theorem run_idempotent_rerun_witness :
    ((AlarmJob.run jobS 100 okRunner false).getD nullRun).executed = [] ∧
    ((AlarmJob.run jobS 100 okRunner false).getD nullRun).appended = [] := by
  have h : AlarmJob.run jobS 100 okRunner false =
      some ((AlarmJob.run jobS 100 okRunner false).getD nullRun) := rfl
  have r := run_idempotent_rerun jobS 100 okRunner _ itemW rfl rfl
    (fun aa ha => by rw [List.mem_singleton.mp ha]; rfl) h
  exact ⟨r.1, r.2.1⟩

/-- C3: `is_end` follows the end-condition decision table
(alarmjob.py lines 192-203): for CR or CT it is true iff the leader item is
closed or the leader alarm's status is cleared ("C"); for CA it is true iff
every item is closed; for M it is always false. Stated for jobs whose
leader item resolves (for an archived leader the property raises instead,
spec §7). -/
theorem is_end_decision_table (job : AlarmJob) (li : Item)
    (hli : AlarmJob.leader_item job = some li) :
    ((job.end_condition = "CR" ∨ job.end_condition = "CT") →
      (AlarmJob.is_end job = some true ↔
        (li.is_close = true ∨ li.alarm.status = "C"))) ∧
    (job.end_condition = "CA" →
      (AlarmJob.is_end job = some true ↔ ∀ i ∈ job.items, i.is_close = true)) ∧
    (job.end_condition = "M" → AlarmJob.is_end job = some false) := by
  refine ⟨?_, ?_, ?_⟩
  · intro hcc
    rw [AlarmJob.is_end, if_pos hcc, hli]
    simp
  · intro hca
    rw [AlarmJob.is_end, if_neg (by rw [hca]; simp), if_pos hca]
    simp [List.all_eq_true]
  · intro hm
    rw [AlarmJob.is_end, if_neg (by rw [hm]; simp),
      if_neg (by rw [hm]; simp), if_pos hm]

/-- Witness for C3: the manual-close job is never ended. -/
theorem is_end_decision_table_witness : AlarmJob.is_end jobM = some false :=
  (is_end_decision_table jobM itemW rfl).2.2 rfl

/-- C4 counterexample: in `jobM` (end condition M, so `is_end` is
`some false`) the only entry has `when == ON_END`, yet `run()` executes it —
the trace holds it and its status becomes SUCCESS — refuting "entries with
when == ON_END execute only when is_end is true". -/
theorem end_phase_gate_counterexample :
    AlarmJob.is_end jobM = some false ∧
    jobM.actions.map (fun aa => aa.when) = [WhenCondition.ON_END] ∧
    ((AlarmJob.run jobM 100 okRunner false).getD nullRun).executed.map
      (fun aa => aa.action) = [2] ∧
    ((AlarmJob.run jobM 100 okRunner false).getD nullRun).job.actions.map
      (fun aa => aa.status) = [ActionStatus.SUCCESS] := by
  refine ⟨rfl, by decide, by decide, by decide⟩

/-- C4 (amended): the end-phase gate of the loop (alarmjob.py line 351)
restricts only non-ON_END entries — they are skipped whenever `is_end` is
true, hence execute only while `is_end` is false; ON_END entries are NOT
gated by the end phase: a due, pending, matching ON_END entry at the head
of the loop is executed regardless of the value of `is_end`. -/
theorem end_phase_gate_amended (ctx : RunCtx) (runner : Runner) :
    (∀ l : List ActionLog, ∀ aa ∈ (runLoop ctx runner l).executed,
      aa.when ≠ WhenCondition.ON_END → ctx.is_end = false) ∧
    (∀ (aa : ActionLog) (rest : List ActionLog),
      aa.when = WhenCondition.ON_END → aa.status = ActionStatus.NEW →
      aa.timestamp ≤ ctx.now →
      aa.is_match ctx.severity ctx.now ctx.ack_user = true →
      aa ∈ (runLoop ctx runner (aa :: rest)).executed) := by
  constructor
  · intro l
    induction l with
    | nil => intro aa h; simp [runLoop] at h
    | cons bb rest ih =>
      intro aa h hw
      by_cases h1 : bb.status = ActionStatus.FAILED
      · rw [runLoop_failed_head ctx runner bb rest h1] at h
        exact ih aa h hw
      · by_cases h2 : bb.when ≠ WhenCondition.ON_END ∧ ctx.is_end = true
        · rw [runLoop, if_neg h1, if_pos h2] at h
          exact ih aa h hw
        · by_cases h3 : ctx.now < bb.timestamp
          · rw [runLoop, if_neg h1, if_neg h2, if_pos h3] at h
            simp at h
          · by_cases h4 : bb.status = ActionStatus.SUCCESS ∧ ctx.changed = false
            · rw [runLoop, if_neg h1, if_neg h2, if_neg h3, if_pos h4] at h
              exact ih aa h hw
            · by_cases h5 : bb.is_match ctx.severity ctx.now ctx.ack_user = false
              · rw [runLoop, if_neg h1, if_neg h2, if_neg h3, if_neg h4, if_pos h5] at h
                exact ih aa h hw
              · rw [runLoop_exec_head ctx runner bb rest h1 h2 (Nat.le_of_not_lt h3) h4
                  (by simp at h5; exact h5)] at h
                by_cases h6 : bb.stop_processing = true
                · rw [if_pos h6] at h
                  simp at h
                  subst h
                  rcases Decidable.not_and_iff_or_not.mp h2 with hcon | hend
                  · exact absurd hw hcon
                  · exact Bool.not_eq_true ctx.is_end ▸ hend
                · rw [if_neg h6] at h
                  simp at h
                  rcases h with h | h
                  · subst h
                    rcases Decidable.not_and_iff_or_not.mp h2 with hcon | hend
                    · exact absurd hw hcon
                    · exact Bool.not_eq_true ctx.is_end ▸ hend
                  · exact ih aa h hw
  · intro aa rest hw hst hts hm
    rw [runLoop_exec_head ctx runner aa rest
      (by rw [hst]; intro hcon; cases hcon)
      (fun hcon => hcon.1 hw)
      hts
      (by rw [hst]; intro hcon; cases hcon.1)
      hm]
    by_cases h6 : aa.stop_processing = true
    · rw [if_pos h6]
      exact List.mem_singleton.mpr rfl
    · rw [if_neg h6]
      exact List.mem_cons_self aa _

/-- Witness for C4 (amended): with `is_end` false, a due pending matching
ON_END entry is executed. -/
theorem end_phase_gate_amended_witness :
    entryON ∈ (runLoop (runCtxOf jobM 100 itemW false false) okRunner
      [entryON]).executed :=
  (end_phase_gate_amended (runCtxOf jobM 100 itemW false false) okRunner).2
    entryON [] rfl rfl (by decide) rfl

/-- When no entry qualifies (pending and not ON_END), the scan of
`get_next_ts` finds nothing. -/
theorem findNextTs_none (l : List ActionLog)
    (h : ∀ aa ∈ l,
      ¬(aa.status = ActionStatus.NEW ∧ aa.when ≠ WhenCondition.ON_END)) :
    findNextTs l = none := by
  induction l with
  | nil => rw [findNextTs]
  | cons aa rest ih =>
    rw [findNextTs, if_neg (h aa (List.mem_cons_self aa rest))]
    exact ih (fun bb hb => h bb (List.mem_cons_of_mem aa hb))

/-- On a timestamp-sorted list holding a qualifying entry, the scan of
`get_next_ts` returns the minimal qualifying timestamp plus one second. -/
theorem findNextTs_min (l : List ActionLog)
    (hsort : l.Pairwise (fun a b => a.timestamp ≤ b.timestamp))
    (a : ActionLog) (ha : a ∈ l) (ha1 : a.status = ActionStatus.NEW)
    (ha2 : a.when ≠ WhenCondition.ON_END) :
    ∃ b ∈ l, b.status = ActionStatus.NEW ∧ b.when ≠ WhenCondition.ON_END ∧
      findNextTs l = some (b.timestamp + 1) ∧
      (∀ c ∈ l, c.status = ActionStatus.NEW → c.when ≠ WhenCondition.ON_END →
        b.timestamp ≤ c.timestamp) := by
  induction l with
  | nil => simp at ha
  | cons bb rest ih =>
    by_cases hq : bb.status = ActionStatus.NEW ∧ bb.when ≠ WhenCondition.ON_END
    · refine ⟨bb, List.mem_cons_self bb rest, hq.1, hq.2, ?_, ?_⟩
      · rw [findNextTs, if_pos hq]
      · intro c hc _ _
        rcases List.mem_cons.mp hc with hc | hc
        · rw [hc]
        · exact (List.pairwise_cons.mp hsort).1 c hc
    · have ha' : a ∈ rest := by
        rcases List.mem_cons.mp ha with hcon | ha'
        · exact absurd (hcon ▸ And.intro ha1 ha2) hq
        · exact ha'
      rcases ih (List.pairwise_cons.mp hsort).2 ha' with
        ⟨b, hb, hb1, hb2, hbeq, hbmin⟩
      refine ⟨b, List.mem_cons_of_mem bb hb, hb1, hb2, ?_, ?_⟩
      · rw [findNextTs, if_neg hq, hbeq]
      · intro c hc hc1 hc2
        rcases List.mem_cons.mp hc with hcon | hc'
        · exact absurd (hcon ▸ And.intro hc1 hc2) hq
        · exact hbmin c hc' hc1 hc2

/-- C5 counterexample: `jobW`'s single action entry — pending, not ON_END —
has timestamp 50, yet `get_next_ts()` returns 51: the source returns
`timestamp + timedelta(seconds=1)`, not the entry's timestamp as claimed. -/
theorem get_next_ts_counterexample :
    jobW.actions.map (fun aa => aa.timestamp) = [50] ∧
    jobW.actions.map (fun aa => aa.status) = [ActionStatus.NEW] ∧
    jobW.actions.map (fun aa => aa.when) = [WhenCondition.IMMEDIATE] ∧
    AlarmJob.get_next_ts jobW = some 51 ∧
    ¬ AlarmJob.get_next_ts jobW = some 50 := by
  refine ⟨by decide, by decide, by decide, by decide, by decide⟩

/-- C5 (amended): `get_next_ts()` returns the timestamp PLUS ONE SECOND
(microseconds stripped; identity at whole-second granularity) of the
earliest — by timestamp order — action entry whose status is NEW and whose
when is not ON_END, and returns null when no such entry exists. -/
theorem get_next_ts_amended (job : AlarmJob) :
    ((∀ aa ∈ job.actions,
        ¬(aa.status = ActionStatus.NEW ∧ aa.when ≠ WhenCondition.ON_END)) →
      AlarmJob.get_next_ts job = none) ∧
    (∀ a ∈ job.actions,
      a.status = ActionStatus.NEW → a.when ≠ WhenCondition.ON_END →
      ∃ b ∈ job.actions, b.status = ActionStatus.NEW ∧
        b.when ≠ WhenCondition.ON_END ∧
        AlarmJob.get_next_ts job = some (b.timestamp + 1) ∧
        (∀ c ∈ job.actions, c.status = ActionStatus.NEW →
          c.when ≠ WhenCondition.ON_END → b.timestamp ≤ c.timestamp)) := by
  constructor
  · intro h
    exact findNextTs_none (sortActions job.actions)
      (fun aa ha => h aa ((mem_sortActions aa job.actions).mp ha))
  · intro a ha ha1 ha2
    rcases findNextTs_min (sortActions job.actions)
        (sortActions_pairwise job.actions) a
        ((mem_sortActions a job.actions).mpr ha) ha1 ha2 with
      ⟨b, hb, hb1, hb2, hbeq, hbmin⟩
    refine ⟨b, (mem_sortActions b job.actions).mp hb, hb1, hb2, hbeq, ?_⟩
    intro c hc hc1 hc2
    exact hbmin c ((mem_sortActions c job.actions).mpr hc) hc1 hc2

/-- Witness for C5 (amended) at `jobW`: the scan returns 50 + 1. -/
theorem get_next_ts_amended_witness :
    AlarmJob.get_next_ts jobW = some 51 := by
  rcases (get_next_ts_amended jobW).2 entryW (List.mem_singleton.mpr rfl) rfl
      (by intro hcon; cases hcon) with ⟨b, hb, _, _, hbeq, _⟩
  rw [List.mem_singleton.mp hb] at hbeq
  exact hbeq

/-- C6 counterexample: `jobC6` holds two due pending entries; the runner
raises on the first, which carries `stop_processing=true`. The error is
recorded as FAILED with its text, but contrary to "continues with the next
entry" the second due entry is never executed in that call and stays NEW:
the executed trace holds only the first entry. -/
theorem action_error_counterexample :
    ((AlarmJob.run jobC6 100 errRunner false).getD nullRun).executed.map
      (fun aa => aa.action) = [3] ∧
    ((AlarmJob.run jobC6 100 errRunner false).getD nullRun).job.actions.map
      (fun aa => aa.action) = [3, 4] ∧
    ((AlarmJob.run jobC6 100 errRunner false).getD nullRun).job.actions.map
      (fun aa => aa.status) = [ActionStatus.FAILED, ActionStatus.NEW] ∧
    ((AlarmJob.run jobC6 100 errRunner false).getD nullRun).job.actions.map
      (fun aa => aa.error) = [some ("boom"), none] := by
  refine ⟨by decide, by decide, by decide, by decide⟩

/-- C6 (amended): when the runner raises on an executed entry, the loop
records a FAILED result carrying the error text on that entry, never
propagates the exception (the loop outcome is always defined), appends no
repeat or follow-on for it, and continues with the next entry UNLESS the
entry's stop_processing flag is set, in which case it breaks with the
remaining entries untouched; furthermore no FAILED entry is ever handed to
the runner (so subsequent runs skip it without retry), and a FAILED entry
at the head of the loop is passed over unchanged. -/
theorem action_error_recovery_amended (ctx : RunCtx) (runner : Runner)
    (aa : ActionLog) (rest : List ActionLog) (msg : String)
    (hst : aa.status = ActionStatus.NEW)
    (hend : aa.when = WhenCondition.ON_END ∨ ctx.is_end = false)
    (hts : aa.timestamp ≤ ctx.now)
    (hm : aa.is_match ctx.severity ctx.now ctx.ack_user = true)
    (hr : runner aa = Except.error msg) :
    (runLoop ctx runner (aa :: rest) =
      if aa.stop_processing then
        ⟨aa.set_status
            { status := ActionStatus.FAILED, error := some msg, action := none,
              document_id := none } :: rest, [], [aa], 0⟩
      else
        ⟨aa.set_status
            { status := ActionStatus.FAILED, error := some msg, action := none,
              document_id := none } :: (runLoop ctx runner rest).processed,
          (runLoop ctx runner rest).appended,
          aa :: (runLoop ctx runner rest).executed,
          (runLoop ctx runner rest).watches⟩) ∧
    (∀ l : List ActionLog, ∀ bb ∈ (runLoop ctx runner l).executed,
      bb.status ≠ ActionStatus.FAILED) ∧
    (∀ (bb : ActionLog) (rest2 : List ActionLog),
      bb.status = ActionStatus.FAILED →
      runLoop ctx runner (bb :: rest2) =
        ⟨bb :: (runLoop ctx runner rest2).processed,
          (runLoop ctx runner rest2).appended,
          (runLoop ctx runner rest2).executed,
          (runLoop ctx runner rest2).watches⟩) := by
  have heff : effResult runner aa =
      { status := ActionStatus.FAILED, error := some msg, action := none,
        document_id := none } := by
    rw [effResult, hr]
  have hrep : repeatOf ctx aa (effResult runner aa) = [] := by
    rw [heff, repeatOf]
    simp
  have hfol : followOf aa (effResult runner aa) = [] := by
    rw [heff, followOf]
  have hw : watchOf ctx (effResult runner aa) = 0 := by
    rw [heff, watchOf]
    simp
  refine ⟨?_, runLoop_executed_not_failed ctx runner,
    fun bb rest2 hbb => runLoop_failed_head ctx runner bb rest2 hbb⟩
  rw [runLoop_exec_head ctx runner aa rest
    (by rw [hst]; intro hcon; cases hcon)
    (by rcases hend with hwhen | hf
        · exact fun hcon => hcon.1 hwhen
        · intro hcon; rw [hf] at hcon; cases hcon.2)
    hts
    (by rw [hst]; intro hcon; cases hcon.1)
    hm]
  rw [heff] at hrep hfol hw
  by_cases h6 : aa.stop_processing = true
  · rw [if_pos h6, if_pos h6, heff, hrep, hfol, hw]
    rfl
  · rw [if_neg h6, if_neg h6, heff, hrep, hfol, hw]
    simp

/-- Witness for C6 (amended) at the concrete failing stop entry. -/
theorem action_error_recovery_amended_witness :
    runLoop (runCtxOf jobC6 100 itemW false false) errRunner [entryStop] =
      ⟨[entryStop.set_status
          { status := ActionStatus.FAILED, error := some ("boom"),
            action := none, document_id := none }], [], [entryStop], 0⟩ := by
  have h := (action_error_recovery_amended (runCtxOf jobC6 100 itemW false false)
    errRunner entryStop [] ("boom") rfl (Or.inr rfl) (by decide) rfl rfl).1
  rw [h]
  rfl

/-- C7: for an executed entry whose result is SUCCESS, a repeat entry — the
clone at `timestamp + repeat_delay` with `repeat_num + 1` (`get_repeat`) —
is appended iff the entry's `repeat_num` is strictly below the job's
`max_repeats` (the appended list is exactly the conditional repeat, then
the follow-on, then the tail's appends); in particular an entry with
`repeat_num = max_repeats` never spawns a repeat even on SUCCESS. -/
theorem repeat_bound (ctx : RunCtx) (runner : Runner) (aa : ActionLog)
    (rest : List ActionLog) (r : ActionResult)
    (hst : aa.status = ActionStatus.NEW)
    (hend : aa.when = WhenCondition.ON_END ∨ ctx.is_end = false)
    (hts : aa.timestamp ≤ ctx.now)
    (hm : aa.is_match ctx.severity ctx.now ctx.ack_user = true)
    (hr : runner aa = Except.ok r)
    (hs : r.status = ActionStatus.SUCCESS) :
    ((runLoop ctx runner (aa :: rest)).appended =
      (if aa.repeat_num < ctx.max_repeats then [aa.get_repeat ctx.repeat_delay]
        else [])
        ++ followOf aa r
        ++ (if aa.stop_processing then []
            else (runLoop ctx runner rest).appended)) ∧
    (aa.repeat_num = ctx.max_repeats →
      (runLoop ctx runner (aa :: rest)).appended =
        followOf aa r
          ++ (if aa.stop_processing then []
              else (runLoop ctx runner rest).appended)) := by
  have heff : effResult runner aa = r := by rw [effResult, hr]
  have hrep : repeatOf ctx aa r =
      if aa.repeat_num < ctx.max_repeats then [aa.get_repeat ctx.repeat_delay]
      else [] := by
    rw [repeatOf]
    by_cases hlt : aa.repeat_num < ctx.max_repeats
    · rw [if_pos (And.intro hlt hs), if_pos hlt]
    · rw [if_neg (fun hcon => hlt hcon.1), if_neg hlt]
  have hmain : (runLoop ctx runner (aa :: rest)).appended =
      (if aa.repeat_num < ctx.max_repeats then [aa.get_repeat ctx.repeat_delay]
        else [])
        ++ followOf aa r
        ++ (if aa.stop_processing then []
            else (runLoop ctx runner rest).appended) := by
    rw [runLoop_exec_head ctx runner aa rest
      (by rw [hst]; intro hcon; cases hcon)
      (by rcases hend with hwhen | hf
          · exact fun hcon => hcon.1 hwhen
          · intro hcon; rw [hf] at hcon; cases hcon.2)
      hts
      (by rw [hst]; intro hcon; cases hcon.1)
      hm]
    by_cases h6 : aa.stop_processing = true
    · rw [if_pos h6, if_pos h6, heff, hrep]
      simp
    · rw [if_neg h6, if_neg h6, heff, hrep]
  refine ⟨hmain, ?_⟩
  intro heq
  rw [hmain, if_neg (by omega)]
  simp

/-- Witness for C7: with `max_repeats = 2` the successful entry with
`repeat_num = 0` spawns exactly its repeat clone. -/
theorem repeat_bound_witness :
    (runLoop ctxR okRunner [entryW]).appended = [entryW.get_repeat 60] := by
  have h := (repeat_bound ctxR okRunner entryW [] okResult rfl (Or.inr rfl)
    (by decide) rfl rfl rfl).1
  rw [h]
  rfl

/-- Once a stop-processing entry executes, the loop ends: any executed entry
with the flag set is the last executed entry of that call. -/
theorem runLoop_stop_last (ctx : RunCtx) (runner : Runner) :
    ∀ l : List ActionLog, ∀ aa ∈ (runLoop ctx runner l).executed,
      aa.stop_processing = true →
      (runLoop ctx runner l).executed.getLast? = some aa := by
  intro l
  induction l with
  | nil => intro aa h; simp [runLoop] at h
  | cons bb rest ih =>
    intro aa h hstop
    by_cases h1 : bb.status = ActionStatus.FAILED
    · rw [runLoop_failed_head ctx runner bb rest h1] at h ⊢
      exact ih aa h hstop
    · by_cases h2 : bb.when ≠ WhenCondition.ON_END ∧ ctx.is_end = true
      · rw [runLoop, if_neg h1, if_pos h2] at h ⊢
        exact ih aa h hstop
      · by_cases h3 : ctx.now < bb.timestamp
        · rw [runLoop, if_neg h1, if_neg h2, if_pos h3] at h
          simp at h
        · by_cases h4 : bb.status = ActionStatus.SUCCESS ∧ ctx.changed = false
          · rw [runLoop, if_neg h1, if_neg h2, if_neg h3, if_pos h4] at h ⊢
            exact ih aa h hstop
          · by_cases h5 : bb.is_match ctx.severity ctx.now ctx.ack_user = false
            · rw [runLoop, if_neg h1, if_neg h2, if_neg h3, if_neg h4,
                if_pos h5] at h ⊢
              exact ih aa h hstop
            · rw [runLoop_exec_head ctx runner bb rest h1 h2
                (Nat.le_of_not_lt h3) h4 (by simp at h5; exact h5)] at h ⊢
              by_cases h6 : bb.stop_processing = true
              · rw [if_pos h6] at h ⊢
                simp at h
                subst h
                rfl
              · rw [if_neg h6] at h ⊢
                simp at h
                rcases h with h | h
                · subst h
                  exact absurd hstop h6
                · have hlast := ih aa h hstop
                  cases hex : (runLoop ctx runner rest).executed with
                  | nil => rw [hex] at h; simp at h
                  | cons cc tl =>
                    rw [hex] at hlast
                    show (bb :: cc :: tl).getLast? = some aa
                    rw [List.getLast?_cons_cons]
                    exact hlast

/-- C8: within one `run()` call, after an executed entry whose
stop_processing flag is set has its result recorded, no subsequent entry in
the sorted action list is processed in that call, even if due: such an
entry is always the last executed one, and at the head of the loop the
break returns every remaining entry untouched with only this entry's
result recorded (and its appends kept). -/
theorem stop_processing_short_circuit (job : AlarmJob) (now : Nat)
    (runner : Runner) (force_end : Bool) (out : RunResult)
    (h : AlarmJob.run job now runner force_end = some out) :
    (∀ aa ∈ out.executed, aa.stop_processing = true →
      out.executed.getLast? = some aa) ∧
    (∀ (ctx2 : RunCtx) (runner2 : Runner) (bb : ActionLog)
        (rest : List ActionLog),
      bb.status ≠ ActionStatus.FAILED →
      ¬(bb.when ≠ WhenCondition.ON_END ∧ ctx2.is_end = true) →
      bb.timestamp ≤ ctx2.now →
      ¬(bb.status = ActionStatus.SUCCESS ∧ ctx2.changed = false) →
      bb.is_match ctx2.severity ctx2.now ctx2.ack_user = true →
      bb.stop_processing = true →
      runLoop ctx2 runner2 (bb :: rest) =
        ⟨bb.set_status (effResult runner2 bb) :: rest,
          repeatOf ctx2 bb (effResult runner2 bb)
            ++ followOf bb (effResult runner2 bb),
          [bb], watchOf ctx2 (effResult runner2 bb)⟩) := by
  constructor
  · rcases run_cases job now runner force_end out h with ⟨_, hc⟩ | ⟨li, e, _, _, hc⟩
    · subst hc
      intro aa ha
      simp at ha
    · subst hc
      intro aa ha hstop
      exact runLoop_stop_last _ runner _ aa ha hstop
  · intro ctx2 runner2 bb rest hb1 hb2 hb3 hb4 hb5 hb6
    rw [runLoop_exec_head ctx2 runner2 bb rest hb1 hb2 hb3 hb4 hb5, if_pos hb6]

/-- Witness for C8: in `jobC6` the stop entry executes and is the last
executed entry of the call. -/
theorem stop_processing_short_circuit_witness :
    ((AlarmJob.run jobC6 100 okRunner false).getD nullRun).executed.getLast?
      = some entryStop := by
  have h : AlarmJob.run jobC6 100 okRunner false =
      some ((AlarmJob.run jobC6 100 okRunner false).getD nullRun) := rfl
  refine (stop_processing_short_circuit jobC6 100 okRunner false _ h).1
    entryStop ?_ rfl
  have hx : ((AlarmJob.run jobC6 100 okRunner false).getD nullRun).executed
      = [entryStop] := rfl
  rw [hx]
  exact List.mem_singleton.mpr rfl

/-- C9: for every alarm whose root field is set, `get_leader()` returns no
leader together with an empty group-key list and an empty service set, so
the caller must suppress job creation — under any escalation policy,
including ROOT (the check at alarmjob.py line 421 precedes every policy
branch). -/
theorem root_alarm_no_leader (job : AlarmJob) (li : Item)
    (hli : AlarmJob.leader_item job = some li)
    (hroot : li.alarm.root.isSome = true) :
    AlarmJob.get_leader job = some (none, [], []) := by
  rw [AlarmJob.get_leader, hli]
  simp only [Option.map_some']
  rw [if_pos hroot]

/-- Witness for C9: a consequence alarm under ROOT policy yields no leader. -/
theorem root_alarm_no_leader_witness :
    AlarmJob.get_leader jobRoot = some (none, [], []) :=
  root_alarm_no_leader jobRoot itemRoot rfl rfl

/-- C10: `is_allowed_action` returns True for every action and every user,
so the permission-denial branch of `run_action` is unreachable:
`run_action` always appends a one-time NEW action log entry at the given
(or current) timestamp and then invokes `run()`, regardless of the job's
allowed-actions whitelist. -/
theorem is_allowed_action_always_true (job : AlarmJob) (a : Nat)
    (u : Option Nat) (cfg : ActionConfig) (timestamp : Option Nat) (now : Nat)
    (runner : Runner) :
    AlarmJob.is_allowed_action job a u = true ∧
    AlarmJob.run_action job cfg u timestamp now runner =
      AlarmJob.run
        { job with actions := job.actions ++
            [ActionLog.from_request cfg (timestamp.getD now) none true] }
        now runner false ∧
    (ActionLog.from_request cfg (timestamp.getD now) none true).status
      = ActionStatus.NEW ∧
    (ActionLog.from_request cfg (timestamp.getD now) none true).one_time
      = true ∧
    (ActionLog.from_request cfg (timestamp.getD now) none true).timestamp
      = timestamp.getD now := by
  refine ⟨rfl, ?_, rfl, rfl, rfl⟩
  rw [AlarmJob.run_action,
    if_neg (by rw [AlarmJob.is_allowed_action]; intro hcon; cases hcon)]

end NocAlarmJob
